import Mathlib

/-!
Verification development for the message-aware gRPC reverse proxy
(`go-proxy/proxy/main.go` and `go-proxy/proxy/crypto.go`).

Wire frames are modelled as `Bytes := List Nat` (one entry per byte of the
Go `[]byte`).  The jhump/protoreflect dynamic-message dependency is modelled
from the specification's dependency contract (§3 "Dynamic message", §4.4):
a message is a descriptor-conforming association list of named field values
with an injective wire encoding, typed reads that return the typed zero on
absence, and a bytes-typed write that fails when the descriptor has no such
field.  All proxy-side logic (`matchRoute`, `processMsg`, the pump step,
`RustVerifySignature`, `RustSignPayload`, the field helpers) is translated
directly from the Go source.
-/

/-- Model of Go `[]byte`: a list of byte values. -/
abbrev Bytes : Type := List Nat

/-- Go `[]byte(s)` for a string literal: the characters' code points. -/
def strBytes (s : String) : Bytes := s.data.map Char.toNat

/-- Protobuf field types used by the envelope processor (bytes, string and
the `map<string,string>` metadata shape of the example envelope). -/
inductive FieldType where
  | bytesT
  | stringT
  | mapT
  deriving DecidableEq, Repr

/-- A dynamic field value. -/
inductive FieldValue where
  | bytesV (b : List Nat)
  | stringV (s : String)
  | mapV (kvs : List (String × String))
  deriving DecidableEq, Repr

/-- The wire type of a field value. -/
def FieldValue.typeOf : FieldValue → FieldType
  | .bytesV _ => .bytesT
  | .stringV _ => .stringT
  | .mapV _ => .mapT

/-- A field declaration of a message descriptor. -/
structure FieldDesc where
  name : String
  ftype : FieldType
  deriving DecidableEq, Repr

/-- Modelled from the spec: a message descriptor (§3) — a named message
with its declared fields. -/
structure MessageDescriptor where
  name : String
  fields : List FieldDesc
  deriving DecidableEq, Repr

/-- Modelled from the spec: a method descriptor exposing input and output
message descriptors (§3 "Descriptor registry"). -/
structure MethodDescriptor where
  inputType : MessageDescriptor
  outputType : MessageDescriptor
  deriving DecidableEq, Repr

/-- Find a field declaration by name in a descriptor. -/
def MessageDescriptor.findField (d : MessageDescriptor) (n : String) : Option FieldDesc :=
  d.fields.find? (fun fd => fd.name == n)

/-- The typed zero value of a field type (absent fields read as this). -/
def FieldType.zero : FieldType → FieldValue
  | .bytesT => .bytesV []
  | .stringT => .stringV ""
  | .mapT => .mapV []

/-! ### Wire encoding of dynamic messages

Modelled from the spec: the dynamic message layer provides a round-trip
`marshal` / `unmarshal` pair (§3).  The encoding is length-prefixed and
injective; the exact byte layout is a model choice standing in for the
protobuf wire format. -/

/-- Encode a string: length, then the characters' code points. -/
def encStr (s : String) : List Nat := s.data.length :: s.data.map Char.toNat

/-- Encode a field value with a leading type tag. -/
def encV : FieldValue → List Nat
  | .bytesV b => 0 :: b.length :: b
  | .stringV s => 1 :: encStr s
  | .mapV kvs => 2 :: kvs.length :: kvs.flatMap (fun kv => encStr kv.1 ++ encStr kv.2)

/-- Encode one named field. -/
def encField (f : String × FieldValue) : List Nat := encStr f.1 ++ encV f.2

/-- Encode a field list: count, then the concatenated fields. -/
def encMsg (l : List (String × FieldValue)) : List Nat := l.length :: l.flatMap encField

/-- Decode a string, returning it and the remaining input. -/
def decStr : List Nat → Option (String × List Nat)
  | [] => none
  | n :: rest =>
    if n ≤ rest.length then
      some (String.mk ((rest.take n).map Char.ofNat), rest.drop n)
    else none

/-- Decode `k` string pairs (map entries). -/
def decEntries : Nat → List Nat → Option (List (String × String) × List Nat)
  | 0, bs => some ([], bs)
  | Nat.succ k, bs =>
    match decStr bs with
    | none => none
    | some (a, bs1) =>
      match decStr bs1 with
      | none => none
      | some (b, bs2) =>
        match decEntries k bs2 with
        | none => none
        | some (rest, bs3) => some ((a, b) :: rest, bs3)

/-- Decode one field value. -/
def decV : List Nat → Option (FieldValue × List Nat)
  | 0 :: n :: rest =>
    if n ≤ rest.length then some (.bytesV (rest.take n), rest.drop n) else none
  | 1 :: rest =>
    match decStr rest with
    | none => none
    | some (s, r) => some (.stringV s, r)
  | 2 :: n :: rest =>
    match decEntries n rest with
    | none => none
    | some (kvs, r) => some (.mapV kvs, r)
  | _ => none

/-- Decode one named field. -/
def decField (bs : List Nat) : Option ((String × FieldValue) × List Nat) :=
  match decStr bs with
  | none => none
  | some (n, r1) =>
    match decV r1 with
    | none => none
    | some (v, r2) => some ((n, v), r2)

/-- Decode `k` named fields. -/
def decFields : Nat → List Nat → Option (List (String × FieldValue) × List Nat)
  | 0, bs => some ([], bs)
  | Nat.succ k, bs =>
    match decField bs with
    | none => none
    | some (f, bs1) =>
      match decFields k bs1 with
      | none => none
      | some (rest, bs2) => some (f :: rest, bs2)

/-- Decode a whole field list. -/
def decMsg : List Nat → Option (List (String × FieldValue) × List Nat)
  | [] => none
  | n :: rest => decFields n rest

theorem take_len_append (l r : List Nat) : (l ++ r).take l.length = l := by
  induction l with
  | nil => rfl
  | cons a t ih => simp [List.take, ih]

theorem drop_len_append (l r : List Nat) : (l ++ r).drop l.length = r := by
  induction l with
  | nil => rfl
  | cons a t ih => simp [List.drop, ih]

theorem decStr_encStr (s : String) (r : List Nat) :
    decStr (encStr s ++ r) = some (s, r) := by
  cases s with
  | mk data =>
    simp only [encStr, decStr, List.cons_append]
    have hlen : (data.map Char.toNat).length = data.length := List.length_map _ _
    rw [if_pos]
    · rw [← hlen, take_len_append, drop_len_append, List.map_map]
      simp [Function.comp_def, Char.ofNat_toNat]
    · rw [List.length_append, hlen]
      exact Nat.le_add_right _ _

theorem decEntries_enc (kvs : List (String × String)) (r : List Nat) :
    decEntries kvs.length (kvs.flatMap (fun kv => encStr kv.1 ++ encStr kv.2) ++ r)
      = some (kvs, r) := by
  induction kvs with
  | nil => rfl
  | cons kv t ih =>
    obtain ⟨a, b⟩ := kv
    simp only [List.length_cons, List.flatMap_cons, decEntries, List.append_assoc,
      decStr_encStr, ih]

theorem decV_encV (v : FieldValue) (r : List Nat) :
    decV (encV v ++ r) = some (v, r) := by
  cases v with
  | bytesV b =>
    simp only [encV, decV, List.cons_append]
    rw [if_pos]
    · rw [take_len_append, drop_len_append]
    · rw [List.length_append]
      exact Nat.le_add_right _ _
  | stringV s =>
    simp only [encV, decV, List.cons_append, List.append_assoc]
    rw [decStr_encStr]
  | mapV kvs =>
    simp only [encV, decV, List.cons_append, List.append_assoc]
    rw [decEntries_enc]

theorem decField_encField (f : String × FieldValue) (r : List Nat) :
    decField (encField f ++ r) = some (f, r) := by
  obtain ⟨n, v⟩ := f
  simp only [encField, decField, List.append_assoc, decStr_encStr, decV_encV]

theorem decFields_enc (l : List (String × FieldValue)) (r : List Nat) :
    decFields l.length (l.flatMap encField ++ r) = some (l, r) := by
  induction l with
  | nil => rfl
  | cons f t ih =>
    simp only [List.length_cons, List.flatMap_cons, decFields, List.append_assoc,
      decField_encField, ih]

theorem decMsg_encMsg (l : List (String × FieldValue)) :
    decMsg (encMsg l) = some (l, []) := by
  simp only [encMsg, decMsg]
  have := decFields_enc l []
  rwa [List.append_nil] at this

/-! ### Dynamic messages and their operations -/

/-- Modelled from the spec: a runtime message value bound to a message
descriptor (§3 "Dynamic message"), as provided by the dynamic reflection
dependency (`dynamic.Message` in the source). -/
structure DynMessage where
  desc : MessageDescriptor
  fields : List (String × FieldValue)
  deriving DecidableEq, Repr

/-- A field list conforms to a descriptor when every present field is
declared with a matching type. -/
def conforms (d : MessageDescriptor) (l : List (String × FieldValue)) : Bool :=
  l.all fun nv =>
    match d.findField nv.1 with
    | some fd => fd.ftype == nv.2.typeOf
    | none => false

/-- Modelled from the spec: `dynamic.Message.Unmarshal` — decode wire bytes
against a descriptor, failing on malformed or non-conforming input. -/
def unmarshal (d : MessageDescriptor) (bs : Bytes) : Option DynMessage :=
  match decMsg bs with
  | some (l, []) => if conforms d l then some ⟨d, l⟩ else none
  | _ => none

/-- Modelled from the spec: `dynamic.Message.Marshal` — re-serialize the
message to wire bytes. -/
def DynMessage.marshal (m : DynMessage) : Option Bytes := some (encMsg m.fields)

/-- Modelled from the spec: `dynamic.Message.TryGetFieldByName` — read a
named field; absent declared fields read as the typed zero; undeclared
names are an error (`none`). -/
def DynMessage.TryGetFieldByName (m : DynMessage) (name : String) : Option FieldValue :=
  match m.desc.findField name with
  | none => none
  | some fd => some (((m.fields.find? (fun nv => nv.1 == name)).map Prod.snd).getD fd.ftype.zero)

/-- Replace (or append) the binding of `name` in an association list. -/
def setAssoc : List (String × FieldValue) → String → FieldValue → List (String × FieldValue)
  | [], name, v => [(name, v)]
  | (k, w) :: rest, name, v =>
    if k == name then (name, v) :: rest else (k, w) :: setAssoc rest name v

/-- Modelled from the spec: `dynamic.Message.TrySetFieldByName` with a
`[]byte` value — fails unless the descriptor declares `name` as a bytes
field (§3: "Writing a field not present in the descriptor fails"). -/
def DynMessage.TrySetFieldByName (m : DynMessage) (name : String) (b : Bytes) :
    Option DynMessage :=
  match m.desc.findField name with
  | some fd =>
    if fd.ftype == FieldType.bytesT then
      some ⟨m.desc, setAssoc m.fields name (.bytesV b)⟩
    else none
  | none => none

/-- Source `getBytesField` (main.go): empty name, read error, or a
non-bytes value all yield `nil`. -/
def getBytesField (msg : DynMessage) (fieldName : String) : Bytes :=
  if fieldName = "" then []
  else
    match msg.TryGetFieldByName fieldName with
    | none => []
    | some (.bytesV b) => b
    | some _ => []

/-- Source `getStringField` (main.go): empty name, read error, or a
non-string value all yield `""`. -/
def getStringField (msg : DynMessage) (fieldName : String) : String :=
  if fieldName = "" then ""
  else
    match msg.TryGetFieldByName fieldName with
    | none => ""
    | some (.stringV s) => s
    | some _ => ""

theorem unmarshal_eq_some {d : MessageDescriptor} {bs : Bytes} {m : DynMessage}
    (h : unmarshal d bs = some m) :
    m.desc = d ∧ conforms d m.fields = true := by
  unfold unmarshal at h
  split at h
  next l heq =>
    split at h
    next hc =>
      cases h
      exact ⟨rfl, hc⟩
    next hc => cases h
  next => cases h

theorem all_setAssoc (p : String × FieldValue → Bool) (l : List (String × FieldValue))
    (name : String) (v : FieldValue) (hv : p (name, v) = true) (hl : l.all p = true) :
    (setAssoc l name v).all p = true := by
  induction l with
  | nil =>
    simp only [setAssoc, List.all_cons, List.all_nil, hv, Bool.and_true]
  | cons nv rest ih =>
    obtain ⟨k, w⟩ := nv
    rw [List.all_cons, Bool.and_eq_true] at hl
    obtain ⟨h1, h2⟩ := hl
    simp only [setAssoc]
    by_cases hk : (k == name) = true
    · rw [if_pos hk, List.all_cons, hv, h2]
      rfl
    · rw [if_neg hk, List.all_cons, h1, ih h2]
      rfl

theorem conforms_setAssoc {d : MessageDescriptor} {l : List (String × FieldValue)}
    {name : String} {fd : FieldDesc} (hc : conforms d l = true)
    (hf : d.findField name = some fd) (hb : fd.ftype = FieldType.bytesT) (b : Bytes) :
    conforms d (setAssoc l name (.bytesV b)) = true := by
  unfold conforms at hc ⊢
  refine all_setAssoc _ l name (.bytesV b) ?_ hc
  simp only [hf, hb, FieldValue.typeOf]
  rfl

theorem find?_setAssoc_eq (l : List (String × FieldValue)) (name : String) (v : FieldValue) :
    (setAssoc l name v).find? (fun nv => nv.1 == name) = some (name, v) := by
  induction l with
  | nil => simp [setAssoc]
  | cons nv rest ih =>
    obtain ⟨k, w⟩ := nv
    simp only [setAssoc]
    by_cases hk : (k == name) = true
    · simp [hk]
    · simp only [hk, Bool.false_eq_true, if_false]
      simp [List.find?, hk, ih]

theorem find?_setAssoc_ne (l : List (String × FieldValue)) (name f : String) (v : FieldValue)
    (hne : f ≠ name) :
    (setAssoc l name v).find? (fun nv => nv.1 == f) = l.find? (fun nv => nv.1 == f) := by
  induction l with
  | nil =>
    simp only [setAssoc, List.find?]
    have : (name == f) = false := by
      simp only [beq_eq_false_iff_ne]
      exact fun h => hne h.symm
    simp [this]
  | cons nv rest ih =>
    obtain ⟨k, w⟩ := nv
    simp only [setAssoc]
    by_cases hk : (k == name) = true
    · have hkname : k = name := by simpa using hk
      have hkf : (k == f) = false := by
        simp only [beq_eq_false_iff_ne]
        rw [hkname]
        exact fun h => hne h.symm
      have hnf : (name == f) = false := by
        simp only [beq_eq_false_iff_ne]
        exact fun h => hne h.symm
      simp [hk, List.find?, hkf, hnf, hkname]
    · simp only [hk, Bool.false_eq_true, if_false]
      simp only [List.find?]
      cases hkf : (k == f) with
      | true => rfl
      | false => exact ih

/-- Setting a bytes field then re-marshalling round-trips: the new wire
bytes decode to exactly the updated message. -/
theorem unmarshal_marshal_set {d : MessageDescriptor} {bs : Bytes} {m : DynMessage}
    {name : String} {fd : FieldDesc} {b : Bytes} {m2 : DynMessage}
    (hm : unmarshal d bs = some m)
    (hf : d.findField name = some fd) (hb : fd.ftype = FieldType.bytesT)
    (hset : m.TrySetFieldByName name b = some m2) :
    unmarshal d (encMsg m2.fields) = some m2 := by
  obtain ⟨hdesc, hconf⟩ := unmarshal_eq_some hm
  unfold DynMessage.TrySetFieldByName at hset
  rw [hdesc, hf] at hset
  simp only [hb, beq_self_eq_true, if_true, Option.some.injEq] at hset
  subst hset
  unfold unmarshal
  rw [decMsg_encMsg]
  simp only [conforms_setAssoc hconf hf hb b, if_true]

/-! ### Go string helpers

Go's `strings.HasPrefix` / `HasSuffix` / `TrimSuffix` / `Split` work on
the byte sequence of a string; they are translated here as operations on
the character list of the model string. -/

/-- Go `strings.HasPrefix s pre`. -/
def goHasPre (s pre : String) : Bool := pre.data.isPrefixOf s.data

/-- Go `strings.HasSuffix s suf`. -/
def goHasSuffix (s suf : String) : Bool := suf.data.isSuffixOf s.data

/-- Go `strings.TrimSuffix s suf`. -/
def goTrimSuffix (s suf : String) : String :=
  if goHasSuffix s suf then String.mk (s.data.take (s.data.length - suf.data.length))
  else s

/-- Split a character list at a separator, keeping empty segments
(the behaviour of Go `strings.Split` with a one-character separator). -/
def splitChar (sep : Char) (l : List Char) : List (List Char) :=
  l.foldr
    (fun ch acc =>
      if ch = sep then [] :: acc
      else
        match acc with
        | h :: t => (ch :: h) :: t
        | [] => [[ch]])
    [[]]

/-- Go `strings.Split s (String.singleton sep)`. -/
def goSplit (s : String) (sep : Char) : List String :=
  (splitChar sep s.data).map String.mk

/-! ### Configuration (main.go, `Config` types) -/

/-- Source `EnvelopeConfig`: the five recognized envelope field-name
options; empty string means "not mapped". -/
structure EnvelopeConfig where
  payloadField : String
  typeURLField : String
  clientSigField : String
  proxySigField : String
  metadataField : String
  deriving DecidableEq, Repr

/-- Source `RouteConfig`: `matchPat` is the YAML `match` pattern (renamed
because `match` is reserved in Lean). -/
structure RouteConfig where
  matchPat : String
  mode : String
  envelope : EnvelopeConfig
  deriving DecidableEq, Repr

/-- The synthetic default returned when no route matches: mode `pass-thru`,
empty (zero-valued) envelope. -/
def defaultRoute : RouteConfig := ⟨"", "pass-thru", ⟨"", "", "", "", ""⟩⟩

/-- Source `matchRoute` (main.go 203-218): first rule wins; a pattern
ending in `/*` matches by string prefix of the pattern minus the trailing
two characters; otherwise by string equality. -/
def matchRoute : List RouteConfig → String → RouteConfig
  | [], _ => defaultRoute
  | route :: rest, methodName =>
    if goHasSuffix route.matchPat "/*" then
      if goHasPre methodName (goTrimSuffix route.matchPat "/*") then route
      else matchRoute rest methodName
    else if route.matchPat == methodName then route
    else matchRoute rest methodName

/-- The per-rule test the matching loop applies, factored out for the
first-match-wins characterisation. -/
def routeMatches (pat methodName : String) : Bool :=
  if goHasSuffix pat "/*" then goHasPre methodName (goTrimSuffix pat "/*")
  else pat == methodName

/-! ### Crypto model

The Go engine uses `crypto/rsa` and the Rust engine the `rust-crypto`
library; neither implementation is under `src/` (the Go one is the
standard library, the Rust source is absent — only `cryptolib.h` is
present).  Both are modelled from the spec (§4.5): RSA PKCS#1 v1.5 with
SHA-256, with the hash-and-pad step abstracted as a deterministic message
representative reduced into the modulus range. -/

/-- An RSA private key: prime factors, modulus, and exponents. -/
structure RSAPriv where
  p : Nat
  q : Nat
  n : Nat
  e : Nat
  d : Nat
  deriving DecidableEq, Repr

/-- A well-formed RSA key pair: `n = p*q` for distinct primes and the
exponents invert each other modulo `(p-1)*(q-1)`. -/
def RSAPriv.Valid (k : RSAPriv) : Prop :=
  k.p.Prime ∧ k.q.Prime ∧ k.p ≠ k.q ∧ k.n = k.p * k.q ∧
    k.d * k.e ≡ 1 [MOD (k.p - 1) * (k.q - 1)]

instance (k : RSAPriv) : Decidable k.Valid := by
  unfold RSAPriv.Valid
  infer_instance

/-- Modelled from the spec: the PKCS#1 v1.5 / SHA-256 message
representative (§4.5); deterministic in the payload, in modulus range. -/
def emsa (payload : Bytes) (n : Nat) : Nat :=
  (List.foldl (fun acc b => acc * 256 + b + 1) 0 payload) % n

/-- Modelled from the spec: RSA PKCS#1 v1.5 SHA-256 signing (`sign`,
§4.5). -/
def rsaSign (k : RSAPriv) (payload : Bytes) : Bytes :=
  [emsa payload k.n ^ k.d % k.n]

/-- An RSA public key (SubjectPublicKeyInfo content). -/
structure RSAPub where
  n : Nat
  e : Nat
  deriving DecidableEq, Repr

/-- Modelled from the spec: the public half of a private key (`spkiPem`
in the round-trip law, §8). -/
def RSAPriv.spki (k : RSAPriv) : RSAPub := ⟨k.n, k.e⟩

/-- Modelled from the spec: RSA PKCS#1 v1.5 SHA-256 verification
(`verify`, §4.5). -/
def rsaVerify (pub : RSAPub) (payload : Bytes) (sig : Bytes) : Bool :=
  match sig with
  | [s] => s ^ pub.e % pub.n == emsa payload pub.n
  | _ => false

/-- Modelled from the spec: `rsa.SignPKCS1v15` as called by the Go engine
(main.go 394) — it receives a random reader but PKCS#1 v1.5 padding is
deterministic, so the `rand` argument is ignored (§4.5 "no random
padding"). -/
def goSignPKCS1v15 (_rand : Nat) (k : RSAPriv) (payload : Bytes) : Bytes :=
  rsaSign k payload

/-- Modelled from the spec: the cached PEM bytes of the proxy private key
(`proxyPrivateKeyPEM`), carrying the key material. -/
def privPEM (k : RSAPriv) : Bytes := [k.n, k.e, k.d]

/-- Modelled from the spec: the cached PEM-encoded SubjectPublicKeyInfo
(`clientPublicKeyPEM`). -/
def spkiPEM (pub : RSAPub) : Bytes := [pub.n, pub.e]

/-- The fallible crypto entry points the proxy calls: the native Go signer
and the foreign library's sign/verify surface.  They are parameters of the
model because each can fail or be swapped in the source. -/
structure CryptoPrims where
  goSign : RSAPriv → Bytes → Option Bytes
  rustSign : Bytes → Bytes → Option Bytes
  rustVerify : Bytes → Bytes → Bytes → Bool

/-- Source `RustVerifySignature` (crypto.go 17-37): zero-length inputs
short-circuit to `false` without calling the foreign side. -/
def RustVerifySignature (verifyFFI : Bytes → Bytes → Bytes → Bool)
    (payload sig pubKeyPEM : Bytes) : Bool :=
  if payload.length = 0 ∨ sig.length = 0 ∨ pubKeyPEM.length = 0 then false
  else verifyFFI payload sig pubKeyPEM

/-- Source `RustSignPayload` (crypto.go 40-74): zero-length inputs
short-circuit to `nil` without calling the foreign side; a failed foreign
call also yields `nil`. -/
def RustSignPayload (signFFI : Bytes → Bytes → Option Bytes)
    (payload privKeyPEM : Bytes) : Option Bytes :=
  if payload.length = 0 ∨ privKeyPEM.length = 0 then none
  else signFFI payload privKeyPEM

/-- Modelled from the spec: the Rust library's `sign_payload`
(rust-crypto source absent from src/; ABI from cryptolib.h, semantics from
§4.5): decode the key PEM, produce the deterministic signature. -/
def modelSignFFI (payload pem : Bytes) : Option Bytes :=
  match pem with
  | [n, _, d] => some [emsa payload n ^ d % n]
  | _ => none

/-- Modelled from the spec: the Rust library's `verify_signature`. -/
def modelVerifyFFI (payload sig pem : Bytes) : Bool :=
  match pem, sig with
  | [n, e], [s] => s ^ e % n == emsa payload n
  | _, _ => false

/-- The fully instantiated primitives: total native signer plus the
modelled foreign library. -/
def rsaPrims : CryptoPrims :=
  { goSign := fun k payload => some (rsaSign k payload)
    rustSign := modelSignFFI
    rustVerify := modelVerifyFFI }

/-! ### Proxy state and the envelope processor -/

/-- Go map lookup `methodDescriptors[method]` (registry built at startup,
immutable afterwards). -/
def lookupMethod (mds : List (String × MethodDescriptor)) (method : String) :
    Option MethodDescriptor :=
  (mds.find? (fun kv => kv.1 == method)).map Prod.snd

/-- Source `findDescByType` (main.go 455-466): first registry entry whose
input or output message name ends with the given suffix. -/
def findDescByType : List (String × MethodDescriptor) → String → Option MessageDescriptor
  | [], _ => none
  | (_, md) :: rest, suffixName =>
    if goHasSuffix md.inputType.name suffixName then some md.inputType
    else if goHasSuffix md.outputType.name suffixName then some md.outputType
    else findDescByType rest suffixName

/-- The proxy's startup-time globals (main.go 77-91): descriptor registry,
engine flag, trust pool handle, parsed proxy key, cached PEM material. -/
structure ProxyState where
  methodDescriptors : List (String × MethodDescriptor)
  cryptoEngine : String
  clientTrustPool : Bool
  proxyPrivateKey : Option RSAPriv
  clientPublicKeyPEM : Bytes
  proxyPrivateKeyPEM : Bytes

/-- The diagnostics `processMsg` emits (modelling its log statements). -/
inductive Event where
  | noDescriptor
  | unmarshalAttempt
  | unmarshalFail
  | envelopeLog
  | innerDecodeOk
  | rustVerify (payload sig : Bytes) (ok : Bool)
  | goVerifyNote (sigLen payloadLen : Nat)
  | verifySkip
  | signFail
  | noProxyKeyMock
  | setFieldFail
  | marshalFail
  deriving DecidableEq, Repr

/-- Source `processMsg` (main.go 305-421): decode the envelope against the
direction's descriptor, inspect the inner payload, and in
`inspect-verify-sign` mode verify the client signature, produce the proxy
signature, inject it and re-serialize; every failure path mirrors the
source.  The event list models the emitted diagnostics. -/
def processMsg (prims : CryptoPrims) (st : ProxyState) (method : String) (isReq : Bool)
    (payload : Bytes) (route : RouteConfig) : Bytes × List Event :=
  match lookupMethod st.methodDescriptors method with
  | none => (payload, [.noDescriptor])
  | some md =>
    let msgDesc := if isReq then md.inputType else md.outputType
    match unmarshal msgDesc payload with
    | none => (payload, [.unmarshalAttempt, .unmarshalFail])
    | some dynMsg =>
      let payloadBytes := getBytesField dynMsg route.envelope.payloadField
      let typeURL := getStringField dynMsg route.envelope.typeURLField
      let innerEvents : List Event :=
        if 0 < payloadBytes.length ∧ typeURL ≠ "" then
          match findDescByType st.methodDescriptors ((goSplit typeURL '/').getLastD "") with
          | some innerMsgDesc =>
            match unmarshal innerMsgDesc payloadBytes with
            | some _ => [.innerDecodeOk]
            | none => []
          | none => []
        else []
      let baseEvents := Event.unmarshalAttempt :: Event.envelopeLog :: innerEvents
      if route.mode == "inspect-verify-sign" then
        let clientSig := getBytesField dynMsg route.envelope.clientSigField
        let verifyEvents : List Event :=
          if st.cryptoEngine == "rust" then
            if 0 < clientSig.length ∧ 0 < st.clientPublicKeyPEM.length then
              [.rustVerify payloadBytes clientSig
                (RustVerifySignature prims.rustVerify payloadBytes clientSig
                  st.clientPublicKeyPEM)]
            else [.verifySkip]
          else
            if 0 < clientSig.length ∧ st.clientTrustPool then
              [.goVerifyNote clientSig.length payloadBytes.length]
            else [.verifySkip]
        let signStep : Bytes × List Event :=
          if st.cryptoEngine == "rust" then
            if 0 < st.proxyPrivateKeyPEM.length then
              match RustSignPayload prims.rustSign payloadBytes st.proxyPrivateKeyPEM with
              | some sig => (sig, [])
              | none => ([], [.signFail])
            else (strBytes "proxy_signed_" ++ payloadBytes, [.noProxyKeyMock])
          else
            match st.proxyPrivateKey with
            | some k =>
              match prims.goSign k payloadBytes with
              | some sig => (sig, [])
              | none => ([], [.signFail])
            | none => (strBytes "proxy_signed_" ++ payloadBytes, [.noProxyKeyMock])
        match dynMsg.TrySetFieldByName route.envelope.proxySigField signStep.1 with
        | none => (payload, baseEvents ++ verifyEvents ++ signStep.2 ++ [.setFieldFail])
        | some m2 =>
          match m2.marshal with
          | some newPayload => (newPayload, baseEvents ++ verifyEvents ++ signStep.2)
          | none => (payload, baseEvents ++ verifyEvents ++ signStep.2 ++ [.marshalFail])
      else
        (payload, baseEvents)

/-- One pump iteration (source `transparentHandler`, main.go 250-283): the
received frame goes through `processMsg` unless the route mode is
`pass-thru`, in which case the bytes are forwarded untouched and no
processing of any kind happens. -/
def pumpFrame (prims : CryptoPrims) (st : ProxyState) (fullMethodName : String)
    (isReq : Bool) (payload : Bytes) (route : RouteConfig) : Bytes × List Event :=
  if route.mode != "pass-thru" then
    processMsg prims st fullMethodName isReq payload route
  else (payload, [])

/-! ### Shared concrete instances used by witnesses and counterexamples -/

/-- A five-field envelope message descriptor shaped like the example
`SecureEnvelope` (payload, type url, client signature, proxy signature,
metadata). -/
def descE : MessageDescriptor :=
  ⟨"pkg.E", [⟨"p", .bytesT⟩, ⟨"u", .stringT⟩, ⟨"c", .bytesT⟩, ⟨"x", .bytesT⟩, ⟨"m", .mapT⟩]⟩

/-- A method using `descE` for both directions. -/
def mdE : MethodDescriptor := ⟨descE, descE⟩

/-- A small valid RSA key pair (p = 3, q = 11, n = 33, e = 3, d = 7). -/
def keyE : RSAPriv := ⟨3, 11, 33, 3, 7⟩

/-- Envelope configuration binding the five options to `descE`'s fields. -/
def envE : EnvelopeConfig := ⟨"p", "u", "c", "x", "m"⟩

/-- An `inspect-verify-sign` route for method `/S/M`. -/
def routeE : RouteConfig := ⟨"/S/M", "inspect-verify-sign", envE⟩

/-- Proxy globals: registry entry for `/S/M`, Go engine, trust store and
proxy key configured. -/
def stGo : ProxyState := ⟨[("/S/M", mdE)], "go", true, some keyE, spkiPEM keyE.spki, privPEM keyE⟩

/-- Same globals with the Rust engine selected. -/
def stRust : ProxyState :=
  ⟨[("/S/M", mdE)], "rust", true, some keyE, spkiPEM keyE.spki, privPEM keyE⟩

/-! ### C3 — route matching -/

/-- C3 (counterexample): the claim says pattern `"/foo.Bar/*"` does not
match method `"/foo.Barnacle/Baz"`, so with that single rule the matcher
would have to return the synthetic pass-thru default; the source's prefix
matcher has no segment-boundary check and returns the rule itself. -/
theorem wildcard_matches_without_segment_boundary :
    matchRoute [⟨"/foo.Bar/*", "inspect-outer", ⟨"", "", "", "", ""⟩⟩] "/foo.Barnacle/Baz"
        = ⟨"/foo.Bar/*", "inspect-outer", ⟨"", "", "", "", ""⟩⟩
      ∧ matchRoute [⟨"/foo.Bar/*", "inspect-outer", ⟨"", "", "", "", ""⟩⟩] "/foo.Barnacle/Baz"
        ≠ defaultRoute := by
  constructor
  · decide
  · decide

/-- C3 (amended): the matcher returns the first rule whose pattern matches
— a `/*` pattern by plain string prefix (no `/`-boundary requirement, so
`"/foo.Bar/*"` matches `"/foo.Barnacle/Baz"` as well as `"/foo.Bar/Baz"`),
any other pattern by equality — and the synthetic pass-thru rule with an
empty envelope when no rule matches. -/
theorem matchRoute_first_match_or_default :
    (∀ (routes : List RouteConfig) (methodName : String),
        matchRoute routes methodName
          = (routes.find? (fun r => routeMatches r.matchPat methodName)).getD defaultRoute)
    ∧ routeMatches "/foo.Bar/*" "/foo.Bar/Baz" = true
    ∧ routeMatches "/foo.Bar/*" "/foo.Barnacle/Baz" = true
    ∧ defaultRoute.mode = "pass-thru"
    ∧ defaultRoute.envelope = ⟨"", "", "", "", ""⟩ := by
  refine ⟨?_, by decide, by decide, rfl, rfl⟩
  intro routes methodName
  induction routes with
  | nil => rfl
  | cons r rest ih =>
    cases h1 : goHasSuffix r.matchPat "/*" with
    | true =>
      cases h2 : goHasPre methodName (goTrimSuffix r.matchPat "/*") with
      | true => simp [matchRoute, List.find?, routeMatches, h1, h2]
      | false => simp [matchRoute, List.find?, routeMatches, h1, h2, ih]
    | false =>
      cases h3 : r.matchPat == methodName with
      | true => simp [matchRoute, List.find?, routeMatches, h1, h3]
      | false => simp [matchRoute, List.find?, routeMatches, h1, h3, ih]

/-! ### C5 — pass-thru pumps -/

/-- C5: on a route whose mode is `pass-thru` the pump forwards every frame
byte-for-byte, in both directions, and performs no processing at all (no
events: in particular no decode is attempted). -/
theorem pass_thru_forwards_bytes_unchanged (prims : CryptoPrims) (st : ProxyState)
    (fullMethodName : String) (isReq : Bool) (payload : Bytes) (route : RouteConfig)
    (hmode : route.mode = "pass-thru") :
    pumpFrame prims st fullMethodName isReq payload route = (payload, []) := by
  unfold pumpFrame
  rw [hmode]
  simp

/-- Witness for C5 at a concrete pass-thru route and frame. -/
theorem pass_thru_forwards_bytes_unchanged_witness :
    (⟨"/S/M", "pass-thru", envE⟩ : RouteConfig).mode = "pass-thru"
      ∧ pumpFrame rsaPrims stGo "/S/M" true [7, 9] ⟨"/S/M", "pass-thru", envE⟩ = ([7, 9], [])
      ∧ pumpFrame rsaPrims stGo "/S/M" false [7, 9] ⟨"/S/M", "pass-thru", envE⟩ = ([7, 9], []) :=
  ⟨rfl, pass_thru_forwards_bytes_unchanged rsaPrims stGo "/S/M" true [7, 9] _ rfl,
    pass_thru_forwards_bytes_unchanged rsaPrims stGo "/S/M" false [7, 9] _ rfl⟩

/-! ### C8 — missing descriptor -/

/-- C8: when the registry has no descriptor for the method, the envelope
processor returns the input bytes unchanged, for both directions and any
route. -/
theorem missing_descriptor_forwards_unchanged (prims : CryptoPrims) (st : ProxyState)
    (method : String) (isReq : Bool) (payload : Bytes) (route : RouteConfig)
    (hmd : lookupMethod st.methodDescriptors method = none) :
    (processMsg prims st method isReq payload route).1 = payload := by
  unfold processMsg
  rw [hmd]

/-- Witness for C8: an empty registry with a non-pass-thru route. -/
theorem missing_descriptor_forwards_unchanged_witness :
    lookupMethod ([] : List (String × MethodDescriptor)) "/S/M" = none
      ∧ (processMsg rsaPrims ⟨[], "go", true, some keyE, [], []⟩ "/S/M" true [1, 2]
          routeE).1 = [1, 2] :=
  ⟨rfl, missing_descriptor_forwards_unchanged rsaPrims ⟨[], "go", true, some keyE, [], []⟩
    "/S/M" true [1, 2] routeE rfl⟩

/-! ### C6 — inspect-outer -/

/-- C6: in `inspect-outer` mode the processor always returns the original
input bytes — the dynamic message is never re-serialized, even when
decoding and inner-payload inspection succeed. -/
theorem inspect_outer_returns_original_bytes (prims : CryptoPrims) (st : ProxyState)
    (method : String) (isReq : Bool) (payload : Bytes) (route : RouteConfig)
    (hmode : route.mode = "inspect-outer") :
    (processMsg prims st method isReq payload route).1 = payload := by
  unfold processMsg
  rw [hmode]
  split
  · rfl
  · split <;> split
    all_goals
      first
        | exact absurd (by assumption : ("inspect-outer" == "inspect-verify-sign") = true)
            (by decide)
        | (dsimp only; split <;> rfl)

/-- Witness for C6: a decodable envelope frame with a resolvable inner
payload is still forwarded as the original bytes. -/
theorem inspect_outer_returns_original_bytes_witness :
    (⟨"/S/M", "inspect-outer", envE⟩ : RouteConfig).mode = "inspect-outer"
      ∧ (processMsg rsaPrims stGo "/S/M" true (encMsg [("p", .bytesV [5])])
          ⟨"/S/M", "inspect-outer", envE⟩).1 = encMsg [("p", .bytesV [5])] :=
  ⟨rfl, inspect_outer_returns_original_bytes rsaPrims stGo "/S/M" true _ _ rfl⟩

/-! ### C9 — zero-length crypto inputs -/

/-- C9: zero-length payload, signature or key PEM make `RustVerifySignature`
return `false` and `RustSignPayload` return `none`; the result is the same
for every possible foreign implementation, i.e. the foreign side is never
consulted. -/
theorem zero_length_inputs_short_circuit :
    (∀ (verifyFFI : Bytes → Bytes → Bytes → Bool) (payload sig pubKeyPEM : Bytes),
        payload = [] ∨ sig = [] ∨ pubKeyPEM = [] →
          RustVerifySignature verifyFFI payload sig pubKeyPEM = false)
    ∧ (∀ (signFFI : Bytes → Bytes → Option Bytes) (payload privKeyPEM : Bytes),
        payload = [] ∨ privKeyPEM = [] →
          RustSignPayload signFFI payload privKeyPEM = none) := by
  constructor
  · intro vf payload sig pub h
    unfold RustVerifySignature
    rcases h with h | h | h <;> subst h <;> simp
  · intro sf payload priv h
    unfold RustSignPayload
    rcases h with h | h <;> subst h <;> simp

/-- Witness for C9 with two different foreign stubs, exercising the empty
payload case. -/
theorem zero_length_inputs_short_circuit_witness :
    RustVerifySignature (fun _ _ _ => true) [] [1] [1] = false
      ∧ RustSignPayload (fun _ _ => some [1]) [] [1] = none :=
  ⟨zero_length_inputs_short_circuit.1 (fun _ _ _ => true) [] [1] [1] (Or.inl rfl),
    zero_length_inputs_short_circuit.2 (fun _ _ => some [1]) [] [1] (Or.inl rfl)⟩

/-! ### C10 — metadata_field is never read -/

/-- C10: the processor's result (bytes and diagnostics alike) is identical
for two routes differing only in `envelope.metadata_field`: the option is
accepted from configuration but never read. -/
theorem output_independent_of_metadata_field (prims : CryptoPrims) (st : ProxyState)
    (method : String) (isReq : Bool) (payload : Bytes) (pat mode pf tf cf xf m1 m2 : String) :
    processMsg prims st method isReq payload ⟨pat, mode, ⟨pf, tf, cf, xf, m1⟩⟩
      = processMsg prims st method isReq payload ⟨pat, mode, ⟨pf, tf, cf, xf, m2⟩⟩ := rfl

/-! ### C7 — crypto round-trip law -/

theorem prime_pow_modEq (p : Nat) (hp : p.Prime) (t : Nat) (ht : (p - 1) ∣ t) (m : Nat) :
    m ^ (t + 1) ≡ m [MOD p] := by
  by_cases hdvd : p ∣ m
  · have h0 : m ≡ 0 [MOD p] := (Nat.modEq_zero_iff_dvd).mpr hdvd
    calc m ^ (t + 1) ≡ 0 ^ (t + 1) [MOD p] := h0.pow _
      _ = 0 := by rw [pow_succ, mul_zero]
      _ ≡ m [MOD p] := h0.symm
  · obtain ⟨c, hc⟩ := ht
    have hcop : Nat.Coprime m p :=
      ((Nat.Prime.coprime_iff_not_dvd hp).mpr hdvd).symm
    have euler : m ^ (p - 1) ≡ 1 [MOD p] := by
      have h := Nat.ModEq.pow_totient hcop
      rwa [Nat.totient_prime hp] at h
    calc m ^ (t + 1) = (m ^ (p - 1)) ^ c * m := by rw [← pow_mul, ← hc, pow_succ]
      _ ≡ 1 ^ c * m [MOD p] := (euler.pow c).mul_right m
      _ = m := by rw [one_pow, one_mul]

theorem rsa_pow_modEq (p q d e : Nat) (hp : p.Prime) (hq : q.Prime) (hpq : p ≠ q)
    (hde : d * e ≡ 1 [MOD (p - 1) * (q - 1)]) (m : Nat) :
    m ^ (d * e) ≡ m [MOD p * q] := by
  have hp2 := hp.two_le
  have hq2 := hq.two_le
  have hM : 2 ≤ (p - 1) * (q - 1) := by
    rcases Nat.lt_or_ge p 3 with h3 | h3
    · have hpe : p = 2 := by omega
      have hq3 : 3 ≤ q := by
        rcases Nat.lt_or_ge q 3 with h | h
        · exact absurd (by omega : p = q) hpq
        · exact h
      calc 2 ≤ q - 1 := by omega
        _ = (p - 1) * (q - 1) := by rw [hpe]; ring
    · calc 2 ≤ p - 1 := by omega
        _ = (p - 1) * 1 := (mul_one _).symm
        _ ≤ (p - 1) * (q - 1) := Nat.mul_le_mul_left _ (by omega)
  have hmod : d * e % ((p - 1) * (q - 1)) = 1 := by
    have h := hde
    unfold Nat.ModEq at h
    rwa [Nat.mod_eq_of_lt (by omega : 1 < (p - 1) * (q - 1))] at h
  obtain ⟨k, hk⟩ : ∃ k, d * e = k * ((p - 1) * (q - 1)) + 1 := by
    refine ⟨d * e / ((p - 1) * (q - 1)), ?_⟩
    conv_lhs => rw [← Nat.div_add_mod (d * e) ((p - 1) * (q - 1))]
    rw [hmod, Nat.mul_comm]
  have hdvd_p : (p - 1) ∣ k * ((p - 1) * (q - 1)) := ⟨k * (q - 1), by ring⟩
  have hdvd_q : (q - 1) ∣ k * ((p - 1) * (q - 1)) := ⟨k * (p - 1), by ring⟩
  have hmp := prime_pow_modEq p hp _ hdvd_p m
  have hmq := prime_pow_modEq q hq _ hdvd_q m
  rw [hk]
  have hcop : Nat.Coprime p q := (Nat.coprime_primes hp hq).mpr hpq
  exact (Nat.modEq_and_modEq_iff_modEq_mul hcop).mp ⟨hmp, hmq⟩

/-- The RSA core identity: signing then verifying recovers the message
representative, for a valid key pair. -/
theorem rsa_core (k : RSAPriv) (hk : k.Valid) (payload : Bytes) :
    (emsa payload k.n ^ k.d % k.n) ^ k.e % k.n = emsa payload k.n := by
  obtain ⟨hp, hq, hpq, hn, hde⟩ := hk
  have hn0 : 0 < k.n := by
    rw [hn]
    exact Nat.mul_pos hp.pos hq.pos
  have hrep : emsa payload k.n < k.n := Nat.mod_lt _ hn0
  calc (emsa payload k.n ^ k.d % k.n) ^ k.e % k.n
      = (emsa payload k.n ^ k.d) ^ k.e % k.n := by rw [← Nat.pow_mod]
    _ = emsa payload k.n ^ (k.d * k.e) % k.n := by rw [← pow_mul]
    _ = emsa payload k.n % k.n := by
        have h := rsa_pow_modEq k.p k.q k.d k.e hp hq hpq hde (emsa payload k.n)
        unfold Nat.ModEq at h
        rw [hn]
        rw [hn] at h
        exact h
    _ = emsa payload k.n := Nat.mod_eq_of_lt hrep

/-- C7: for both crypto backends, signing is deterministic (the Go
engine's signer ignores its random reader; the modelled foreign signer is
a function of payload and key alone) and the round-trip law holds:
verifying a signature produced with the private key against the
corresponding SPKI public key succeeds, natively and through the
`RustSignPayload` / `RustVerifySignature` wrappers. -/
theorem crypto_sign_deterministic_and_round_trip (k : RSAPriv) (payload : Bytes)
    (hk : k.Valid) (hpl : payload ≠ []) :
    (∀ r1 r2 : Nat, goSignPKCS1v15 r1 k payload = goSignPKCS1v15 r2 k payload)
    ∧ rsaVerify k.spki payload (rsaSign k payload) = true
    ∧ RustSignPayload rsaPrims.rustSign payload (privPEM k) = some (rsaSign k payload)
    ∧ RustVerifySignature rsaPrims.rustVerify payload (rsaSign k payload) (spkiPEM k.spki)
      = true := by
  have hlen : payload.length ≠ 0 := by
    intro h
    exact hpl (List.length_eq_zero.mp h)
  refine ⟨fun r1 r2 => rfl, ?_, ?_, ?_⟩
  · unfold rsaVerify rsaSign RSAPriv.spki
    simp only [rsa_core k hk payload, beq_self_eq_true]
  · unfold RustSignPayload
    rw [if_neg]
    · rfl
    · rintro (h | h)
      · exact hlen h
      · simp [privPEM] at h
  · unfold RustVerifySignature
    rw [if_neg]
    · show modelVerifyFFI payload (rsaSign k payload) (spkiPEM k.spki) = true
      unfold modelVerifyFFI spkiPEM RSAPriv.spki rsaSign
      simp only [rsa_core k hk payload, beq_self_eq_true]
    · rintro (h | h | h)
      · exact hlen h
      · simp [rsaSign] at h
      · simp [spkiPEM, RSAPriv.spki] at h

/-- Witness for C7 at the concrete key pair `keyE` and payload `[5]`. -/
theorem crypto_sign_deterministic_and_round_trip_witness :
    keyE.Valid ∧ ([5] : Bytes) ≠ []
      ∧ ((∀ r1 r2 : Nat, goSignPKCS1v15 r1 keyE [5] = goSignPKCS1v15 r2 keyE [5])
        ∧ rsaVerify keyE.spki [5] (rsaSign keyE [5]) = true
        ∧ RustSignPayload rsaPrims.rustSign [5] (privPEM keyE) = some (rsaSign keyE [5])
        ∧ RustVerifySignature rsaPrims.rustVerify [5] (rsaSign keyE [5]) (spkiPEM keyE.spki)
          = true) :=
  ⟨by decide, by decide, crypto_sign_deterministic_and_round_trip keyE [5] (by decide)
    (by decide)⟩

/-! ### Reading fields after a successful bytes write -/

theorem TryGet_set_eq {m : DynMessage} {name : String} {b : Bytes} {m2 : DynMessage}
    (hset : m.TrySetFieldByName name b = some m2) :
    m2.TryGetFieldByName name = some (.bytesV b) := by
  unfold DynMessage.TrySetFieldByName at hset
  split at hset
  next fd hfd =>
    split at hset
    next hft =>
      have hb : fd.ftype = FieldType.bytesT := by simpa using hft
      simp only [Option.some.injEq] at hset
      subst hset
      unfold DynMessage.TryGetFieldByName
      simp only [hfd, find?_setAssoc_eq, Option.map_some', Option.getD_some]
    next => cases hset
  next => cases hset

theorem TryGet_set_ne {m : DynMessage} {name : String} {b : Bytes} {m2 : DynMessage}
    (f : String) (hset : m.TrySetFieldByName name b = some m2) (hne : f ≠ name) :
    m2.TryGetFieldByName f = m.TryGetFieldByName f := by
  unfold DynMessage.TrySetFieldByName at hset
  split at hset
  next fd hfd =>
    split at hset
    next hft =>
      simp only [Option.some.injEq] at hset
      subst hset
      unfold DynMessage.TryGetFieldByName
      simp only [find?_setAssoc_ne _ _ _ _ hne]
    next => cases hset
  next => cases hset

/-! ### C1 — inspect-verify-sign and the proxy signature field -/

/-- The conclusion shape of C1: the forwarded frame decodes to a message
equal to `dynMsg` in every field except the configured proxy-signature
field, which now holds exactly `sig`. -/
def ForwardsSigned (st : ProxyState) (method : String) (isReq : Bool) (payload : Bytes)
    (route : RouteConfig) (msgDesc : MessageDescriptor) (dynMsg : DynMessage)
    (sig : Bytes) : Prop :=
  ∃ m2 : DynMessage,
    unmarshal msgDesc (processMsg rsaPrims st method isReq payload route).1 = some m2
      ∧ m2.TryGetFieldByName route.envelope.proxySigField = some (.bytesV sig)
      ∧ ∀ f, f ≠ route.envelope.proxySigField →
          m2.TryGetFieldByName f = dynMsg.TryGetFieldByName f

/-- C1 (counterexample): the claim is engine-agnostic, but with the rust
engine selected, a configured key PEM and a decodable frame whose
payload-field bytes are empty, `RustSignPayload` short-circuits to `nil`
(crypto.go 41-43), so the proxy-signature field of the forwarded frame is
written empty — not the RSA signature of the (empty) payload bytes. -/
theorem rust_empty_payload_breaks_sign_equation :
    stRust.cryptoEngine = "rust"
      ∧ stRust.proxyPrivateKeyPEM = privPEM keyE
      ∧ unmarshal descE (encMsg []) = some ⟨descE, []⟩
      ∧ getBytesField ⟨descE, ([] : List (String × FieldValue))⟩ routeE.envelope.payloadField
          = []
      ∧ unmarshal descE (processMsg rsaPrims stRust "/S/M" true (encMsg []) routeE).1
          = some ⟨descE, [("x", .bytesV [])]⟩
      ∧ DynMessage.TryGetFieldByName ⟨descE, [("x", .bytesV [])]⟩
            routeE.envelope.proxySigField
          ≠ some (.bytesV (rsaSign keyE
              (getBytesField ⟨descE, ([] : List (String × FieldValue))⟩
                routeE.envelope.payloadField))) := by
  refine ⟨rfl, rfl, by decide, by decide, by decide, by decide⟩

/-- C1 (amended): for a frame that unmarshals against the direction's
descriptor, on a route whose mode is `inspect-verify-sign`, with the
proxy-signature field declared as bytes: under the native (go) engine with
a parsed proxy key, the forwarded frame decodes equal to the input except
the proxy-signature field, which holds the RSA-PKCS#1v1.5-SHA256 signature
of the payload-field bytes under the proxy key; under the rust engine with
the key PEM configured the same holds whenever the payload-field bytes are
non-empty, while zero-length payload bytes short-circuit signing and the
proxy-signature field is written empty instead. -/
theorem inspect_verify_sign_rewrites_only_proxy_sig (st : ProxyState) (method : String)
    (isReq : Bool) (payload : Bytes) (route : RouteConfig) (md : MethodDescriptor)
    (dynMsg : DynMessage) (k : RSAPriv) (fd : FieldDesc)
    (hmd : lookupMethod st.methodDescriptors method = some md)
    (hmode : route.mode = "inspect-verify-sign")
    (hum : unmarshal (if isReq then md.inputType else md.outputType) payload = some dynMsg)
    (hf : (if isReq then md.inputType else md.outputType).findField
        route.envelope.proxySigField = some fd)
    (hb : fd.ftype = FieldType.bytesT) :
    (st.cryptoEngine = "go" → st.proxyPrivateKey = some k →
        ForwardsSigned st method isReq payload route
          (if isReq then md.inputType else md.outputType) dynMsg
          (rsaSign k (getBytesField dynMsg route.envelope.payloadField)))
      ∧ (st.cryptoEngine = "rust" → st.proxyPrivateKeyPEM = privPEM k →
          getBytesField dynMsg route.envelope.payloadField ≠ [] →
          ForwardsSigned st method isReq payload route
            (if isReq then md.inputType else md.outputType) dynMsg
            (rsaSign k (getBytesField dynMsg route.envelope.payloadField)))
      ∧ (st.cryptoEngine = "rust" → st.proxyPrivateKeyPEM ≠ [] →
          getBytesField dynMsg route.envelope.payloadField = [] →
          ForwardsSigned st method isReq payload route
            (if isReq then md.inputType else md.outputType) dynMsg []) := by
  have hdesc := (unmarshal_eq_some hum).1
  have mkset : ∀ s : Bytes, dynMsg.TrySetFieldByName route.envelope.proxySigField s
      = some ⟨dynMsg.desc, setAssoc dynMsg.fields route.envelope.proxySigField
          (.bytesV s)⟩ := by
    intro s
    unfold DynMessage.TrySetFieldByName
    rw [hdesc, hf]
    simp [hb]
  have mkconc : ∀ s : Bytes,
      (processMsg rsaPrims st method isReq payload route).1
          = encMsg (setAssoc dynMsg.fields route.envelope.proxySigField (.bytesV s)) →
      ForwardsSigned st method isReq payload route
        (if isReq then md.inputType else md.outputType) dynMsg s := by
    intro s hout
    refine ⟨⟨dynMsg.desc, setAssoc dynMsg.fields route.envelope.proxySigField (.bytesV s)⟩,
      ?_, TryGet_set_eq (mkset s), fun f hne => TryGet_set_ne f (mkset s) hne⟩
    rw [hout]
    exact unmarshal_marshal_set hum hf hb (mkset s)
  refine ⟨?_, ?_, ?_⟩
  · intro hengine hkey
    refine mkconc _ ?_
    unfold processMsg
    rw [hmd]
    dsimp only
    rw [hum]
    dsimp only
    rw [hmode, hengine]
    rw [if_pos (by decide : (("inspect-verify-sign" == "inspect-verify-sign")) = true)]
    rw [if_neg (by decide : ¬ (("go" == "rust")) = true)]
    rw [hkey]
    dsimp only [rsaPrims]
    rw [mkset _]
    rfl
  · intro hengine hpem hpl
    have hsign : RustSignPayload rsaPrims.rustSign
        (getBytesField dynMsg route.envelope.payloadField) st.proxyPrivateKeyPEM
        = some (rsaSign k (getBytesField dynMsg route.envelope.payloadField)) := by
      rw [hpem]
      unfold RustSignPayload
      rw [if_neg]
      · rfl
      · rintro (h | h)
        · exact hpl (List.length_eq_zero.mp h)
        · simp [privPEM] at h
    refine mkconc _ ?_
    unfold processMsg
    rw [hmd]
    dsimp only
    rw [hum]
    dsimp only
    rw [hmode, hengine]
    rw [if_pos (by decide : (("inspect-verify-sign" == "inspect-verify-sign")) = true)]
    rw [if_pos (show 0 < st.proxyPrivateKeyPEM.length by rw [hpem]; simp [privPEM])]
    rw [hsign]
    rw [mkset _]
    rfl
  · intro hengine hpem0 hpl0
    have hsign0 : RustSignPayload rsaPrims.rustSign
        (getBytesField dynMsg route.envelope.payloadField) st.proxyPrivateKeyPEM
        = none := by
      unfold RustSignPayload
      rw [if_pos (Or.inl (by rw [hpl0]; rfl))]
    refine mkconc _ ?_
    unfold processMsg
    rw [hmd]
    dsimp only
    rw [hum]
    dsimp only
    rw [hmode, hengine]
    rw [if_pos (by decide : (("inspect-verify-sign" == "inspect-verify-sign")) = true)]
    rw [if_pos (List.length_pos.mpr hpem0)]
    rw [hsign0]
    rw [mkset _]
    rfl

/-- Witness for C1: a concrete envelope with payload bytes `[5]` acquires
proxy signature `rsaSign keyE [5]` and nothing else changes, under either
engine. -/
theorem inspect_verify_sign_rewrites_only_proxy_sig_witness :
    ForwardsSigned stGo "/S/M" true (encMsg [("p", .bytesV [5])]) routeE
        (if true then mdE.inputType else mdE.outputType) ⟨descE, [("p", .bytesV [5])]⟩
        (rsaSign keyE (getBytesField ⟨descE, [("p", .bytesV [5])]⟩
          routeE.envelope.payloadField))
      ∧ ForwardsSigned stRust "/S/M" true (encMsg [("p", .bytesV [5])]) routeE
        (if true then mdE.inputType else mdE.outputType) ⟨descE, [("p", .bytesV [5])]⟩
        (rsaSign keyE (getBytesField ⟨descE, [("p", .bytesV [5])]⟩
          routeE.envelope.payloadField)) :=
  ⟨(inspect_verify_sign_rewrites_only_proxy_sig stGo "/S/M" true
      (encMsg [("p", .bytesV [5])]) routeE mdE ⟨descE, [("p", .bytesV [5])]⟩ keyE
      ⟨"x", .bytesT⟩ rfl rfl (by decide) (by decide) rfl).1 rfl rfl,
    (inspect_verify_sign_rewrites_only_proxy_sig stRust "/S/M" true
      (encMsg [("p", .bytesV [5])]) routeE mdE ⟨descE, [("p", .bytesV [5])]⟩ keyE
      ⟨"x", .bytesT⟩ rfl rfl (by decide) (by decide) rfl).2.1 rfl rfl (by decide)⟩

/-! ### C2 — which failures forward the original frame -/

/-- C2 (counterexample): with a client-signature field name the descriptor
does not declare (the field read fails) and a signer that returns an error
(the signing operation fails), the forwarded frame differs from the
received frame: the processor continues after both failures, clears the
proxy-signature field and re-serializes. -/
theorem sign_failure_still_mutates_frame :
    descE.findField "zz" = none
      ∧ Event.signFail ∈ (processMsg ⟨fun _ _ => none, fun _ _ => none, fun _ _ _ => false⟩
          stGo "/S/M" true (encMsg [("p", .bytesV [5]), ("x", .bytesV [9])])
          ⟨"/S/M", "inspect-verify-sign", ⟨"p", "u", "zz", "x", "m"⟩⟩).2
      ∧ (processMsg ⟨fun _ _ => none, fun _ _ => none, fun _ _ _ => false⟩
          stGo "/S/M" true (encMsg [("p", .bytesV [5]), ("x", .bytesV [9])])
          ⟨"/S/M", "inspect-verify-sign", ⟨"p", "u", "zz", "x", "m"⟩⟩).1
        ≠ encMsg [("p", .bytesV [5]), ("x", .bytesV [9])] := by
  refine ⟨by decide, by decide, by decide⟩

/-- C2 (amended): in `inspect-verify-sign`, a failed unmarshal and a failed
write of the proxy-signature field (field absent or not bytes-typed) each
forward the received frame byte-for-byte, and the pump never terminates
the stream (the processor is total); a failed envelope-field read,
however, yields the typed zero value and processing continues, and a
failed signing operation writes an empty signature — in both of those
cases a mutated frame is forwarded (a failed re-marshal also short-circuits
to the original frame in the source; the modelled marshaller is total). -/
theorem recoverable_failures_forward_original (prims : CryptoPrims) (st : ProxyState)
    (method : String) (isReq : Bool) (payload : Bytes) (route : RouteConfig)
    (md : MethodDescriptor)
    (hmd : lookupMethod st.methodDescriptors method = some md)
    (hmode : route.mode = "inspect-verify-sign")
    (hfail : unmarshal (if isReq then md.inputType else md.outputType) payload = none
      ∨ ∃ dynMsg, unmarshal (if isReq then md.inputType else md.outputType) payload
            = some dynMsg
          ∧ ∀ b : Bytes, dynMsg.TrySetFieldByName route.envelope.proxySigField b = none) :
    (processMsg prims st method isReq payload route).1 = payload := by
  unfold processMsg
  rw [hmd]
  dsimp only
  rcases hfail with h | ⟨dynMsg, h, hyperW⟩
  · rw [h]
  · rw [h]
    dsimp only
    rw [hmode]
    rw [if_pos (by decide : (("inspect-verify-sign" == "inspect-verify-sign")) = true)]
    rw [hyperW]

/-- Witness for C2 at a frame that fails to unmarshal. -/
theorem recoverable_failures_forward_original_witness :
    unmarshal (if true then mdE.inputType else mdE.outputType) [99] = none
      ∧ (processMsg rsaPrims stGo "/S/M" true [99] routeE).1 = [99] :=
  ⟨by decide, recoverable_failures_forward_original rsaPrims stGo "/S/M" true [99] routeE
    mdE rfl rfl (Or.inl (by decide))⟩

/-! ### C4 — client-signature verification -/

/-- Recognizer for the foreign-engine verification event. -/
def Event.isRustVerify : Event → Bool
  | .rustVerify _ _ _ => true
  | _ => false

/-- C4 (counterexample): with the Go engine selected, a non-empty client
signature and a configured trust anchor, no verify operation is invoked at
all — the processor only emits the "Verifying signature" log line
(`goVerifyNote`) and signs; the claim's "the selected crypto engine's
verify operation is invoked" fails for the native engine. -/
theorem go_engine_performs_no_verification :
    stGo.cryptoEngine = "go"
      ∧ stGo.clientTrustPool = true
      ∧ getBytesField ⟨descE, [("p", .bytesV [5]), ("c", .bytesV [7])]⟩
          routeE.envelope.clientSigField ≠ []
      ∧ Event.goVerifyNote 1 1 ∈ (processMsg rsaPrims stGo "/S/M" true
          (encMsg [("p", .bytesV [5]), ("c", .bytesV [7])]) routeE).2
      ∧ ((processMsg rsaPrims stGo "/S/M" true
          (encMsg [("p", .bytesV [5]), ("c", .bytesV [7])]) routeE).2.all
            (fun e => ! e.isRustVerify)) = true := by
  refine ⟨rfl, rfl, by decide, by decide, by decide⟩

/-- C4 (amended): with the rust engine selected, a non-empty client
signature and a non-empty cached trust-anchor SPKI, `RustVerifySignature`
is invoked on the payload bytes and the client signature and its outcome
(success or failure) is reported as a diagnostic; the forwarded bytes are
the same whatever the verifier returns, so a failed verification never
drops the message or terminates the stream.  With the go engine the
processor performs no verification (it only logs). -/
theorem rust_engine_verifies_and_still_forwards (prims : CryptoPrims) (st : ProxyState)
    (method : String) (isReq : Bool) (payload : Bytes) (route : RouteConfig)
    (md : MethodDescriptor) (dynMsg : DynMessage)
    (hmd : lookupMethod st.methodDescriptors method = some md)
    (hmode : route.mode = "inspect-verify-sign")
    (hengine : st.cryptoEngine = "rust")
    (hum : unmarshal (if isReq then md.inputType else md.outputType) payload = some dynMsg)
    (hsig : getBytesField dynMsg route.envelope.clientSigField ≠ [])
    (hpem : st.clientPublicKeyPEM ≠ []) :
    Event.rustVerify (getBytesField dynMsg route.envelope.payloadField)
        (getBytesField dynMsg route.envelope.clientSigField)
        (RustVerifySignature prims.rustVerify
          (getBytesField dynMsg route.envelope.payloadField)
          (getBytesField dynMsg route.envelope.clientSigField) st.clientPublicKeyPEM)
      ∈ (processMsg prims st method isReq payload route).2
    ∧ ∀ vf : Bytes → Bytes → Bytes → Bool,
        (processMsg ⟨prims.goSign, prims.rustSign, vf⟩ st method isReq payload route).1
          = (processMsg prims st method isReq payload route).1 := by
  constructor
  · unfold processMsg
    rw [hmd]
    dsimp only
    rw [hum]
    dsimp only
    rw [hmode, hengine]
    rw [if_pos (by decide : (("inspect-verify-sign" == "inspect-verify-sign")) = true)]
    rw [if_pos (by decide : (("rust" == "rust")) = true)]
    split <;>
      simp [List.mem_append, DynMessage.marshal, List.length_pos.mpr hsig,
        List.length_pos.mpr hpem]
  · intro vf
    unfold processMsg
    rw [hmd]
    dsimp only
    rw [hum]
    dsimp only
    rw [hmode, hengine]
    rw [if_pos (by decide : (("inspect-verify-sign" == "inspect-verify-sign")) = true)]
    rw [if_pos (by decide : (("rust" == "rust")) = true)]
    split <;> rfl

/-- Witness for C4: a rust-engine run with client signature `[7]`. -/
theorem rust_engine_verifies_and_still_forwards_witness :
    Event.rustVerify (getBytesField ⟨descE, [("p", .bytesV [5]), ("c", .bytesV [7])]⟩
          routeE.envelope.payloadField)
        (getBytesField ⟨descE, [("p", .bytesV [5]), ("c", .bytesV [7])]⟩
          routeE.envelope.clientSigField)
        (RustVerifySignature rsaPrims.rustVerify
          (getBytesField ⟨descE, [("p", .bytesV [5]), ("c", .bytesV [7])]⟩
            routeE.envelope.payloadField)
          (getBytesField ⟨descE, [("p", .bytesV [5]), ("c", .bytesV [7])]⟩
            routeE.envelope.clientSigField) stRust.clientPublicKeyPEM)
      ∈ (processMsg rsaPrims stRust "/S/M" true
          (encMsg [("p", .bytesV [5]), ("c", .bytesV [7])]) routeE).2
    ∧ (processMsg ⟨rsaPrims.goSign, rsaPrims.rustSign, fun _ _ _ => false⟩ stRust "/S/M" true
          (encMsg [("p", .bytesV [5]), ("c", .bytesV [7])]) routeE).1
        = (processMsg rsaPrims stRust "/S/M" true
          (encMsg [("p", .bytesV [5]), ("c", .bytesV [7])]) routeE).1 :=
  ⟨(rust_engine_verifies_and_still_forwards rsaPrims stRust "/S/M" true
      (encMsg [("p", .bytesV [5]), ("c", .bytesV [7])]) routeE mdE
      ⟨descE, [("p", .bytesV [5]), ("c", .bytesV [7])]⟩
      rfl rfl rfl (by decide) (by decide) (by decide)).1,
    (rust_engine_verifies_and_still_forwards rsaPrims stRust "/S/M" true
      (encMsg [("p", .bytesV [5]), ("c", .bytesV [7])]) routeE mdE
      ⟨descE, [("p", .bytesV [5]), ("c", .bytesV [7])]⟩
      rfl rfl rfl (by decide) (by decide) (by decide)).2 (fun _ _ _ => false)⟩
